import Mathlib

/-!
Verification development for the clause-to-layout alignment and
highlight-overlay engine of the legal document analyzer client
(src/client/src/components/pdf-viewer.jsx and clause-legend.jsx).

The embedding below translates the relevant JavaScript functions into
Lean definitions:

* Text is modelled as List Char.  Normalization (replace whitespace,
  toLowerCase) becomes filter + map.
* The page string / char-to-item index map built by highlightTextInPage
  step 2 becomes buildPageAux.
* JavaScript String.indexOf(target, start) (with its fromIndex clamp and
  its behaviour on the empty search string) becomes indexOfFrom, a first
  position search.  The while loop of step 3 resumes at the previous
  match end; since JavaScript loops have no a priori bound the loop is
  modelled with explicit fuel, returning none when the fuel runs out.
  For a nonempty target, fuel pageLength + 1 is always sufficient; for
  the empty target the loop provably never terminates (see the lemmas
  below), which mirrors the actual JavaScript divergence.
* The JS Set of items collected in step 4 becomes an
  insertion-ordered duplicate-free List Nat of item indices (JS Sets
  hold distinct object references; pdf.js text items are distinct
  objects, identified here by their index in the item array).
* Geometry (step 5) uses rational matrix entries (JS numbers are
  binary floats, a subset of the rationals) and real-valued results,
  with Math.hypot(x, y) modelled as Real.sqrt (x^2 + y^2).
  pdfjsLib.Util.transform is an external library function; following
  the specification it is the standard 2D affine composition for
  matrices in the [a b c d e f] convention.
-/

namespace DocViewer

/-- Normalization used by highlightTextInPage steps 1 and 2:
rawStr.replace(whitespace, "").toLowerCase(). -/
def normalizeStr (s : List Char) : List Char :=
  (s.filter (fun ch => !ch.isWhitespace)).map Char.toLower

/-- A 2D affine matrix in the pdf.js [a b c d e f] convention. -/
structure Affine where
  a : ℚ
  b : ℚ
  c : ℚ
  d : ℚ
  e : ℚ
  f : ℚ
deriving DecidableEq

/-- Standard 2D affine composition, the semantics of the external
pdfjsLib.Util.transform(m1, m2) in the [a b c d e f] convention
(x' = a*x + c*y + e, y' = b*x + d*y + f). -/
def composeAffine (m1 m2 : Affine) : Affine where
  a := m1.a * m2.a + m1.c * m2.b
  b := m1.b * m2.a + m1.d * m2.b
  c := m1.a * m2.c + m1.c * m2.d
  d := m1.b * m2.c + m1.d * m2.d
  e := m1.a * m2.e + m1.c * m2.f + m1.e
  f := m1.b * m2.e + m1.d * m2.f + m1.f

/-- One text item of a page's text content: an atomic glyph run. -/
structure GlyphItem where
  str : List Char
  transform : Affine
  width : ℚ
deriving DecidableEq

/-- A pdf.js page viewport: its transform matrix and its uniform scale. -/
structure Viewport where
  transform : Affine
  scale : ℚ
deriving DecidableEq

/-- Math.hypot(x, y) on rational inputs. -/
noncomputable def hypotR (x y : ℚ) : ℝ :=
  Real.sqrt ((x : ℝ) ^ 2 + (y : ℝ) ^ 2)

/-- A JavaScript value read off the color-map object: one of the own
string entries, a member inherited from Object.prototype (a function or
object, identified by its property name), or undefined.  Property
access on a JS object literal consults the prototype chain, so reads of
names such as "toString" yield the inherited member, not undefined. -/
inductive JSValue where
  | str : String → JSValue
  | protoMember : String → JSValue
  | undef : JSValue
deriving DecidableEq

/-- JavaScript truthiness of the values above: a string is truthy when
nonempty; inherited functions/objects are truthy; undefined is falsy. -/
def jsTruthy : JSValue → Bool
  | JSValue.str s => !(s == "")
  | JSValue.protoMember _ => true
  | JSValue.undef => false

/-- The JavaScript expression v || fallback. -/
def jsOr (v fallback : JSValue) : JSValue :=
  if jsTruthy v then v else fallback

/-- The own property names of Object.prototype, inherited by every
plain object literal such as the color map and the legend's
accumulator. -/
def objectProtoKeys : List String :=
  ["constructor", "hasOwnProperty", "isPrototypeOf",
   "propertyIsEnumerable", "toLocaleString", "toString", "valueOf",
   "__proto__", "__defineGetter__", "__defineSetter__",
   "__lookupGetter__", "__lookupSetter__"]

/-- A highlight rectangle as produced by step 5 of highlightTextInPage. -/
structure HighlightRect where
  left : ℝ
  top : ℝ
  width : ℝ
  height : ℝ
  color : JSValue
  title : String

/-- Step 5 of highlightTextInPage for one glyph item: compose the
viewport transform with the item transform, derive font height from the
vertical basis magnitude, width from item.width times viewport.scale,
and anchor the box top at baseline minus height. -/
noncomputable def rectFor (viewport : Viewport) (item : GlyphItem)
    (color : JSValue) (clauseName : String) (searchText : List Char) :
    HighlightRect :=
  let tx := composeAffine viewport.transform item.transform
  let fontHeight := hypotR tx.c tx.d
  let fontWidth := ((item.width * viewport.scale : ℚ) : ℝ)
  { left := (tx.e : ℝ)
    top := (tx.f : ℝ) - fontHeight
    width := fontWidth
    height := fontHeight
    color := color
    title := clauseName ++ ": \x22" ++ String.mk (searchText.take 50) ++ "..." }

/-- Step 2 of highlightTextInPage: build the normalized page string and
the parallel char-to-item map, starting at item index idx. -/
def buildPageAux (items : List GlyphItem) (idx : Nat) : List Char × List Nat :=
  match items with
  | [] => ([], [])
  | it :: rest =>
    let clean := normalizeStr it.str
    let restP := buildPageAux rest (idx + 1)
    (clean ++ restP.1, List.replicate clean.length idx ++ restP.2)

/-- The fullPageStr accumulated by step 2. -/
def fullPage (items : List GlyphItem) : List Char :=
  (buildPageAux items 0).1

/-- The charToItemMap accumulated by step 2. -/
def charToItemMap (items : List GlyphItem) : List Nat :=
  (buildPageAux items 0).2

/-- target occurs in page as a contiguous block starting at index i. -/
def occursAt (page target : List Char) (i : Nat) : Bool :=
  decide (i + target.length ≤ page.length) &&
    target == (page.drop i).take target.length

/-- First index at or after start (within fuel steps) satisfying p. -/
def findFirst (p : Nat → Bool) (start fuel : Nat) : Option Nat :=
  match fuel with
  | 0 => none
  | Nat.succ f => if p start then some start else findFirst p (start + 1) f

/-- JavaScript fullPageStr.indexOf(target, start): the least position at
or after start (clamped to the page length) where target occurs.  For an
empty target this returns the clamped start, never a miss, exactly as in
JavaScript. -/
def indexOfFrom (page target : List Char) (start : Nat) : Option Nat :=
  let s := min start page.length
  findFirst (occursAt page target) s (page.length + 1 - s)

/-- Step 3 of highlightTextInPage: the while loop collecting
(start, end) pairs of matches, resuming each search at the previous
match end.  Modelled with fuel; none means the loop has not finished
within fuel iterations. -/
def scanOccurrences (page target : List Char) (fuel start : Nat) :
    Option (List (Nat × Nat)) :=
  match fuel with
  | 0 => none
  | Nat.succ f =>
    match indexOfFrom page target start with
    | none => some []
    | some i =>
      (scanOccurrences page target f (i + target.length)).map
        (fun rest => (i, i + target.length) :: rest)

/-- JS Set.add on the insertion-ordered list of collected item indices. -/
def setAdd (s : List Nat) (x : Nat) : List Nat :=
  if x ∈ s then s else s ++ [x]

/-- Body of the inner loop of step 4: look one matched character
position up in the map and add its item index, skipping (defensively)
positions that are out of range. -/
def addChar (map : List Nat) (acc : List Nat) (i : Nat) : List Nat :=
  match map.get? i with
  | some j => setAdd acc j
  | none => acc

/-- Inner loop of step 4 over the character range [a, b) of one match. -/
def collectRange (map : List Nat) (s0 : List Nat) (a b : Nat) : List Nat :=
  (List.range' a (b - a)).foldl (addChar map) s0

/-- Outer loop of step 4 over all matches found in step 3. -/
def collectItemsAux (map : List Nat) (s0 : List Nat) :
    List (Nat × Nat) → List Nat
  | [] => s0
  | q :: rest => collectItemsAux map (collectRange map s0 q.1 q.2) rest

/-- Step 4 of highlightTextInPage: the deduplicated, insertion-ordered
set of item indices touched by any found occurrence. -/
def collectItems (map : List Nat) (occs : List (Nat × Nat)) : List Nat :=
  collectItemsAux map [] occs

/-- Steps 1-4 of highlightTextInPage (the locate operation): normalize,
build the page string and map, scan, and collect the touched items.
none models a scan that does not terminate within the canonical fuel
pageLength + 1 (sufficient for every nonempty target). -/
def locateCore (searchText : List Char) (items : List GlyphItem) :
    Option (List Nat) :=
  let target := normalizeStr searchText
  let page := fullPage items
  (scanOccurrences page target (page.length + 1) 0).map
    (collectItems (charToItemMap items))

/-- The full highlightTextInPage: the short-text guard, the locate
steps, then step 5 which skips empty/whitespace-only items and produces
one rectangle per remaining item of the set. -/
noncomputable def highlightTextInPage (searchText : List Char)
    (color : JSValue) (textItems : List GlyphItem) (viewport : Viewport)
    (clauseName : String) : Option (List HighlightRect) :=
  if searchText.length < 3 then some []
  else
    (locateCore searchText textItems).map (fun idxs =>
      ((idxs.filterMap (fun i => textItems.get? i)).filter
        (fun it => !(it.str.all (fun ch => ch.isWhitespace)))).map
          (fun it => rectFor viewport it color clauseName searchText))

/-- The fixed category color table of getClauseColor
(pdf-viewer.jsx). -/
def clauseColorTable : List (String × String) :=
  [("Document Name", "#FFB347"),
   ("Parties", "#FF6B6B"),
   ("Agreement Date", "#4ECDC4"),
   ("Effective Date", "#45B7D1"),
   ("Expiration Date", "#96CEB4"),
   ("Renewal Term", "#98D8C8"),
   ("Notice to Terminate Renewal", "#DDA0DD"),
   ("Governing Law", "#FFEAA7"),
   ("Most Favored Nation", "#F8BBD9"),
   ("Non-Compete", "#E17055"),
   ("Exclusivity", "#A29BFE"),
   ("No-Solicit of Customers", "#FD79A8"),
   ("Competitive Restriction Exception", "#FDCB6E"),
   ("No-Solicit of Employees", "#6C5CE7"),
   ("Non-Disparagement", "#00B894"),
   ("Termination for Convenience", "#E84393"),
   ("Right of First Refusal, Offer or Negotiation (ROFR/ROFO/ROFN)", "#00CEC9"),
   ("Change of Control", "#FF7675"),
   ("Anti-Assignment", "#74B9FF"),
   ("Revenue/Profit Sharing", "#55A3FF"),
   ("Price Restriction", "#FD79A8"),
   ("Minimum Commitment", "#FDCB6E"),
   ("Volume Restriction", "#6C5CE7"),
   ("IP Ownership Assignment", "#00B894"),
   ("Joint IP Ownership", "#E17055"),
   ("License Grant", "#A29BFE"),
   ("Non-Transferable License", "#FD79A8"),
   ("Affiliate IP License-Licensor", "#FDCB6E"),
   ("Affiliate IP License-Licensee", "#74B9FF"),
   ("Unlimited/All-You-Can-Eat License", "#55A3FF"),
   ("Irrevocable or Perpetual License", "#00CEC9"),
   ("Source Code Escrow", "#E84393"),
   ("Post-Termination Services", "#00B894"),
   ("Audit Rights", "#FF7675"),
   ("Uncapped Liability", "#E17055"),
   ("Cap on Liability", "#A29BFE"),
   ("Liquidated Damages", "#FD79A8"),
   ("Warranty Duration", "#FDCB6E"),
   ("Insurance", "#74B9FF"),
   ("Covenant not to Sue", "#55A3FF"),
   ("Third Party Beneficiary", "#00CEC9"),
   ("O-label", "#E6E6FA")]

/-- The JavaScript property read colorMap[clauseName]: an own entry of
the object literal if present, otherwise the member inherited from
Object.prototype if the name collides with one, otherwise undefined. -/
def colorMapGet (clauseName : String) : JSValue :=
  match clauseColorTable.lookup clauseName with
  | some c => JSValue.str c
  | none =>
    if clauseName ∈ objectProtoKeys then JSValue.protoMember clauseName
    else JSValue.undef

/-- getClauseColor: colorMap[clauseName] || the designated fallback
color, with JS property-access and truthiness semantics. -/
def getClauseColor (clauseName : String) : JSValue :=
  jsOr (colorMapGet clauseName) (JSValue.str "#FFFF00")

/-- One predicted clause record: {category, clause}. -/
structure ClauseRecord where
  category : String
  clause : List Char
deriving DecidableEq

/-- item?.category with the "Unknown" default for a falsy (empty)
category. -/
def clauseDisplayName (c : ClauseRecord) : String :=
  if c.category = "" then "Unknown" else c.category

/-- renderHighlights body: iterate the predicted clauses, skip short or
empty clause texts, and accumulate the rectangles appended to the
highlight layer; none propagates an inner non-terminating scan. -/
noncomputable def renderHighlightsAux (items : List GlyphItem)
    (vp : Viewport) (acc : List HighlightRect) :
    List ClauseRecord → Option (List HighlightRect)
  | [] => some acc
  | c :: rest =>
    let name := clauseDisplayName c
    if c.clause.length < 3 then renderHighlightsAux items vp acc rest
    else
      match highlightTextInPage c.clause (getClauseColor name) items vp name with
      | none => none
      | some rects => renderHighlightsAux items vp (acc ++ rects) rest

/-- renderHighlights: the rectangles of all predicted clauses on the
current page. -/
noncomputable def renderHighlights (clauses : List ClauseRecord)
    (items : List GlyphItem) (vp : Viewport) :
    Option (List HighlightRect) :=
  renderHighlightsAux items vp [] clauses

/-- Width of a pdf.js viewport for a page with unrotated size
pageWidth x pageHeight: width and height swap when the rotation is an
odd quarter turn.  Modelled from the external pdf.js
page.getViewport({scale, rotation}). -/
def viewportWidth (pageWidth pageHeight scale : ℚ) (rotation : Nat) : ℚ :=
  if rotation % 180 = 90 then scale * pageHeight else scale * pageWidth

/-- updateScaleToFit: (containerWidth - 48) divided by the width of the
unscaled viewport taken at the current rotation. -/
def updateScaleToFit (pageWidth pageHeight : ℚ) (rotation : Nat)
    (containerWidth : ℚ) : ℚ :=
  (containerWidth - 48) / viewportWidth pageWidth pageHeight 1 rotation

/-- Number of positions at which target occurs in page. -/
def countOccs (page target : List Char) : Nat :=
  ((List.range (page.length + 1)).filter
    (fun i => occursAt page target i)).length

/-- Glyph item with a given text, an identity placement and zero width,
used for concrete locate computations. -/
def mkGlyph (s : String) : GlyphItem :=
  ⟨s.toList, ⟨1, 0, 0, 1, 0, 0⟩, 0⟩

/-- The page text "AAA BBB AAA" split over three glyph runs. -/
def itemsAAA : List GlyphItem :=
  [mkGlyph "AAA ", mkGlyph "BBB ", mkGlyph "AAA"]

/-- Concrete viewport for the geometry counterexample: scale 1 with the
standard pdf.js y-flip. -/
def cexViewport : Viewport := ⟨⟨1, 0, 0, -1, 0, 100⟩, 1⟩

/-- Concrete unrotated glyph: font size 10, advance width 50. -/
def cexItemUnrot : GlyphItem := ⟨"A".toList, ⟨10, 0, 0, 10, 20, 30⟩, 50⟩

/-- The same glyph with its transform rotated a quarter turn. -/
def cexItemRot90 : GlyphItem := ⟨"A".toList, ⟨0, 10, -10, 0, 20, 30⟩, 50⟩

/-! Helper lemmas about the embedded operations. -/

lemma occursAt_le {page target : List Char} {i : Nat}
    (h : occursAt page target i = true) :
    i + target.length ≤ page.length := by
  unfold occursAt at h
  rw [Bool.and_eq_true] at h
  exact of_decide_eq_true h.1

lemma occursAt_lt_succ {page target : List Char} {v : Nat}
    (h : occursAt page target v = true) : v < page.length + 1 := by
  have := occursAt_le h
  omega

lemma findFirst_succ (p : Nat → Bool) (start f : Nat) :
    findFirst p start (f + 1) =
      if p start then some start else findFirst p (start + 1) f := rfl

lemma findFirst_eq_some {p : Nat → Bool} :
    ∀ {fuel start i : Nat}, findFirst p start fuel = some i →
      p i = true ∧ start ≤ i ∧ ∀ j, start ≤ j → j < i → p j = false := by
  intro fuel
  induction fuel with
  | zero => intro start i h; exact absurd h (by simp [findFirst])
  | succ f ih =>
    intro start i h
    rw [findFirst_succ] at h
    by_cases hp : p start
    · rw [if_pos hp] at h
      injection h with h
      subst h
      exact ⟨hp, Nat.le_refl _, fun j h1 h2 => absurd h1 (by omega)⟩
    · rw [if_neg hp] at h
      obtain ⟨hpi, hle, hmin⟩ := ih h
      refine ⟨hpi, by omega, fun j h1 h2 => ?_⟩
      rcases Nat.eq_or_lt_of_le h1 with h1 | h1
      · subst h1
        exact Bool.eq_false_iff.mpr hp
      · exact hmin j h1 h2

lemma findFirst_eq_some_of {p : Nat → Bool} :
    ∀ {fuel start i : Nat}, p i = true → start ≤ i → i < start + fuel →
      (∀ j, start ≤ j → j < i → p j = false) →
      findFirst p start fuel = some i := by
  intro fuel
  induction fuel with
  | zero => intro start i _ h1 h2 _; omega
  | succ f ih =>
    intro start i hi h1 h2 hmin
    rw [findFirst_succ]
    rcases Nat.eq_or_lt_of_le h1 with heq | hlt
    · subst heq
      rw [if_pos hi]
    · rw [if_neg (by simpa using hmin start (Nat.le_refl _) hlt)]
      exact ih hi (by omega) (by omega) (fun j ha hb => hmin j (by omega) hb)

lemma findFirst_eq_none_of {p : Nat → Bool} :
    ∀ {fuel start : Nat}, (∀ j, start ≤ j → j < start + fuel → p j = false) →
      findFirst p start fuel = none := by
  intro fuel
  induction fuel with
  | zero => intro start _; rfl
  | succ f ih =>
    intro start h
    rw [findFirst_succ,
      if_neg (by simpa using h start (Nat.le_refl _) (by omega))]
    exact ih (fun j ha hb => h j (by omega) (by omega))

lemma indexOfFrom_eq_some_of {page target : List Char} {start i : Nat}
    (hi : occursAt page target i = true) (hsi : start ≤ i)
    (hmin : ∀ j, start ≤ j → j < i → occursAt page target j = false) :
    indexOfFrom page target start = some i := by
  have hil : i ≤ page.length := le_trans (Nat.le_add_right _ _) (occursAt_le hi)
  have hs : min start page.length = start :=
    min_eq_left (le_trans hsi hil)
  unfold indexOfFrom
  rw [hs]
  exact findFirst_eq_some_of hi hsi (by omega) hmin

lemma indexOfFrom_eq_none_of {page target : List Char} {start : Nat}
    (ht : target ≠ []) (h : ∀ j, start ≤ j → occursAt page target j = false) :
    indexOfFrom page target start = none := by
  unfold indexOfFrom
  apply findFirst_eq_none_of
  intro j hj1 _
  by_cases hjs : start ≤ j
  · exact h j hjs
  · have hlj : page.length ≤ j := by
      rcases le_total start page.length with h1 | h1
      · rw [min_eq_left h1] at hj1
        omega
      · rw [min_eq_right h1] at hj1
        exact hj1
    have htl : 1 ≤ target.length := List.length_pos.mpr ht
    have hnot : ¬(j + target.length ≤ page.length) := by omega
    unfold occursAt
    rw [decide_eq_false hnot, Bool.false_and]

lemma indexOfFrom_sound {page target : List Char} {start i : Nat}
    (h : indexOfFrom page target start = some i) :
    occursAt page target i = true := by
  unfold indexOfFrom at h
  exact (findFirst_eq_some h).1

lemma indexOfFrom_empty (page : List Char) (start : Nat) :
    indexOfFrom page [] start = some (min start page.length) := by
  have hs : min start page.length ≤ page.length := min_le_right _ _
  have hocc : occursAt page [] (min start page.length) = true := by
    unfold occursAt
    simp [hs]
  obtain ⟨k, hk⟩ : ∃ k, page.length + 1 - min start page.length = k + 1 :=
    ⟨page.length - min start page.length, by omega⟩
  have hd : indexOfFrom page [] start =
      findFirst (occursAt page []) (min start page.length)
        (page.length + 1 - min start page.length) := rfl
  rw [hd, hk, findFirst_succ, if_pos hocc]

lemma scanOccurrences_zero (page target : List Char) (start : Nat) :
    scanOccurrences page target 0 start = none := rfl

lemma scanOccurrences_succ (page target : List Char) (f start : Nat) :
    scanOccurrences page target (f + 1) start =
      match indexOfFrom page target start with
      | none => some []
      | some i =>
        (scanOccurrences page target f (i + target.length)).map
          (fun rest => (i, i + target.length) :: rest) := rfl

lemma scanOccurrences_nil_target (page : List Char) :
    ∀ fuel start, scanOccurrences page [] fuel start = none := by
  intro fuel
  induction fuel with
  | zero => intro start; rfl
  | succ f ih =>
    intro start
    rw [scanOccurrences_succ, indexOfFrom_empty]
    simp [ih]

lemma scanOccurrences_unique {page target : List Char} (ht : target ≠ [])
    {u : Nat} (hu : occursAt page target u = true)
    (huniq : ∀ v, occursAt page target v = true → v = u) :
    scanOccurrences page target (page.length + 1) 0 =
      some [(u, u + target.length)] := by
  have htlen : 1 ≤ target.length := List.length_pos.mpr ht
  have hul : u + target.length ≤ page.length := occursAt_le hu
  have hmin : ∀ j, 0 ≤ j → j < u → occursAt page target j = false := by
    intro j _ hj
    cases hoc : occursAt page target j with
    | false => rfl
    | true => exact absurd (huniq j hoc) (by omega)
  have hafter : ∀ j, u + target.length ≤ j → occursAt page target j = false := by
    intro j hj
    cases hoc : occursAt page target j with
    | false => rfl
    | true => exact absurd (huniq j hoc) (by omega)
  have h1 : indexOfFrom page target 0 = some u :=
    indexOfFrom_eq_some_of hu (Nat.zero_le u) hmin
  obtain ⟨k, hk⟩ : ∃ k, page.length + 1 = k + 2 := ⟨page.length - 1, by omega⟩
  have h3 : scanOccurrences page target (k + 1) (u + target.length) = some [] := by
    rw [scanOccurrences_succ, indexOfFrom_eq_none_of ht hafter]
  rw [hk, scanOccurrences_succ, h1]
  simp [h3]

lemma scanOccurrences_sound {page target : List Char} :
    ∀ {fuel start : Nat} {occs : List (Nat × Nat)},
      scanOccurrences page target fuel start = some occs →
      ∀ q ∈ occs, occursAt page target q.1 = true ∧
        q.2 = q.1 + target.length := by
  intro fuel
  induction fuel with
  | zero =>
    intro start occs h
    exact absurd h (by rw [scanOccurrences_zero]; simp)
  | succ f ih =>
    intro start occs h
    rw [scanOccurrences_succ] at h
    cases hidx : indexOfFrom page target start with
    | none =>
      rw [hidx] at h
      injection h with h
      subst h
      intro q hq
      exact absurd hq (by simp)
    | some i =>
      rw [hidx] at h
      simp only [Option.map_eq_some'] at h
      obtain ⟨rest, hrest, hcons⟩ := h
      subst hcons
      intro q hq
      rcases List.mem_cons.mp hq with hq | hq
      · subst hq
        exact ⟨indexOfFrom_sound hidx, rfl⟩
      · exact ih hrest q hq

lemma mem_setAdd {s : List Nat} {x j : Nat} :
    j ∈ setAdd s x ↔ j ∈ s ∨ j = x := by
  unfold setAdd
  by_cases hx : x ∈ s
  · rw [if_pos hx]
    constructor
    · exact Or.inl
    · rintro (h | rfl)
      · exact h
      · exact hx
  · rw [if_neg hx]
    simp [List.mem_append]

lemma nodup_setAdd {s : List Nat} {x : Nat} (h : s.Nodup) :
    (setAdd s x).Nodup := by
  unfold setAdd
  by_cases hx : x ∈ s
  · rwa [if_pos hx]
  · rw [if_neg hx, List.nodup_append]
    exact ⟨h, List.nodup_singleton x,
      fun a ha hax => hx ((List.mem_singleton.mp hax) ▸ ha)⟩

lemma mem_foldl_addChar (map : List Nat) :
    ∀ (l : List Nat) (s0 : List Nat) (j : Nat),
      j ∈ l.foldl (addChar map) s0 ↔
        j ∈ s0 ∨ ∃ i ∈ l, map.get? i = some j := by
  intro l
  induction l with
  | nil => simp
  | cons hd tl ih =>
    intro s0 j
    rw [List.foldl_cons, ih]
    unfold addChar
    cases hget : map.get? hd with
    | none =>
      constructor
      · rintro (h | ⟨i, hi, hj⟩)
        · exact Or.inl h
        · exact Or.inr ⟨i, List.mem_cons_of_mem _ hi, hj⟩
      · rintro (h | ⟨i, hi, hj⟩)
        · exact Or.inl h
        · rcases List.mem_cons.mp hi with rfl | hi
          · rw [hget] at hj
            cases hj
          · exact Or.inr ⟨i, hi, hj⟩
    | some v =>
      rw [mem_setAdd]
      constructor
      · rintro ((h | rfl) | ⟨i, hi, hj⟩)
        · exact Or.inl h
        · exact Or.inr ⟨hd, List.mem_cons_self _ _, hget⟩
        · exact Or.inr ⟨i, List.mem_cons_of_mem _ hi, hj⟩
      · rintro (h | ⟨i, hi, hj⟩)
        · exact Or.inl (Or.inl h)
        · rcases List.mem_cons.mp hi with rfl | hi
          · rw [hget] at hj
            injection hj with hj
            exact Or.inl (Or.inr hj.symm)
          · exact Or.inr ⟨i, hi, hj⟩

lemma mem_collectRange {map : List Nat} {a b : Nat} {s0 : List Nat} {j : Nat} :
    j ∈ collectRange map s0 a b ↔
      j ∈ s0 ∨ ∃ i, a ≤ i ∧ i < b ∧ map.get? i = some j := by
  unfold collectRange
  rw [mem_foldl_addChar]
  apply or_congr Iff.rfl
  apply exists_congr
  intro i
  rw [List.mem_range'_1]
  constructor
  · rintro ⟨⟨h1, h2⟩, h3⟩
    exact ⟨h1, by omega, h3⟩
  · rintro ⟨h1, h2, h3⟩
    exact ⟨⟨h1, by omega⟩, h3⟩

lemma nodup_foldl_addChar (map : List Nat) :
    ∀ (l : List Nat) (s0 : List Nat), s0.Nodup →
      (l.foldl (addChar map) s0).Nodup := by
  intro l
  induction l with
  | nil => intro s0 h; exact h
  | cons hd tl ih =>
    intro s0 h
    rw [List.foldl_cons]
    apply ih
    unfold addChar
    cases map.get? hd with
    | none => exact h
    | some v => exact nodup_setAdd h

lemma collectItemsAux_cons (map : List Nat) (s0 : List Nat)
    (q : Nat × Nat) (rest : List (Nat × Nat)) :
    collectItemsAux map s0 (q :: rest) =
      collectItemsAux map (collectRange map s0 q.1 q.2) rest := rfl

lemma mem_collectItemsAux {map : List Nat} :
    ∀ (occs : List (Nat × Nat)) (s0 : List Nat) (j : Nat),
      j ∈ collectItemsAux map s0 occs ↔
        j ∈ s0 ∨ ∃ q ∈ occs, ∃ i, q.1 ≤ i ∧ i < q.2 ∧ map.get? i = some j := by
  intro occs
  induction occs with
  | nil => simp [collectItemsAux]
  | cons q rest ih =>
    intro s0 j
    rw [collectItemsAux_cons, ih, mem_collectRange]
    constructor
    · rintro ((h | ⟨i, h1, h2, h3⟩) | ⟨p, hp, i, h1, h2, h3⟩)
      · exact Or.inl h
      · exact Or.inr ⟨q, List.mem_cons_self _ _, i, h1, h2, h3⟩
      · exact Or.inr ⟨p, List.mem_cons_of_mem _ hp, i, h1, h2, h3⟩
    · rintro (h | ⟨p, hp, i, h1, h2, h3⟩)
      · exact Or.inl (Or.inl h)
      · rcases List.mem_cons.mp hp with rfl | hp
        · exact Or.inl (Or.inr ⟨i, h1, h2, h3⟩)
        · exact Or.inr ⟨p, hp, i, h1, h2, h3⟩

lemma mem_collectItems {map : List Nat} {occs : List (Nat × Nat)} {j : Nat} :
    j ∈ collectItems map occs ↔
      ∃ q ∈ occs, ∃ i, q.1 ≤ i ∧ i < q.2 ∧ map.get? i = some j := by
  unfold collectItems
  rw [mem_collectItemsAux]
  simp

lemma nodup_collectItemsAux {map : List Nat} :
    ∀ (occs : List (Nat × Nat)) (s0 : List Nat), s0.Nodup →
      (collectItemsAux map s0 occs).Nodup := by
  intro occs
  induction occs with
  | nil => intro s0 h; exact h
  | cons q rest ih =>
    intro s0 h
    rw [collectItemsAux_cons]
    exact ih _ (nodup_foldl_addChar map _ _ h)

lemma nodup_collectItems {map : List Nat} {occs : List (Nat × Nat)} :
    (collectItems map occs).Nodup :=
  nodup_collectItemsAux occs [] List.nodup_nil

lemma buildPageAux_length :
    ∀ (items : List GlyphItem) (idx : Nat),
      (buildPageAux items idx).2.length = (buildPageAux items idx).1.length := by
  intro items
  induction items with
  | nil => intro idx; rfl
  | cons it rest ih =>
    intro idx
    simp [buildPageAux, ih]

lemma buildPageAux_mem_lt :
    ∀ (items : List GlyphItem) (idx j : Nat),
      j ∈ (buildPageAux items idx).2 → j < idx + items.length := by
  intro items
  induction items with
  | nil => intro idx j h; exact absurd h (by simp [buildPageAux])
  | cons it rest ih =>
    intro idx j h
    simp only [buildPageAux, List.mem_append] at h
    rcases h with h | h
    · have := (List.mem_replicate.mp h).2
      simp [this]
    · have := ih (idx + 1) j h
      simp only [List.length_cons]
      omega

lemma charToItemMap_length (items : List GlyphItem) :
    (charToItemMap items).length = (fullPage items).length :=
  buildPageAux_length items 0

lemma charToItemMap_mem_lt {items : List GlyphItem} {j : Nat}
    (h : j ∈ charToItemMap items) : j < items.length := by
  have := buildPageAux_mem_lt items 0 j h
  omega

lemma countOccs_eq_one {page target : List Char}
    (h : countOccs page target = 1) :
    ∃ u, occursAt page target u = true ∧
      ∀ v, occursAt page target v = true → v = u := by
  unfold countOccs at h
  obtain ⟨a, ha⟩ := List.length_eq_one.mp h
  refine ⟨a, ?_, ?_⟩
  · have hmem : a ∈ (List.range (page.length + 1)).filter
        (fun i => occursAt page target i) := by
      rw [ha]
      exact List.mem_singleton.mpr rfl
    simpa using (List.mem_filter.mp hmem).2
  · intro v hv
    have hvmem : v ∈ (List.range (page.length + 1)).filter
        (fun i => occursAt page target i) :=
      List.mem_filter.mpr
        ⟨List.mem_range.mpr (occursAt_lt_succ hv), by simpa using hv⟩
    rw [ha] at hvmem
    exact List.mem_singleton.mp hvmem

lemma renderHighlightsAux_short :
    ∀ (clauses : List ClauseRecord) (items : List GlyphItem) (vp : Viewport)
      (acc : List HighlightRect), (∀ c ∈ clauses, c.clause.length < 3) →
      renderHighlightsAux items vp acc clauses = some acc := by
  intro clauses
  induction clauses with
  | nil => intro items vp acc _; rfl
  | cons c rest ih =>
    intro items vp acc h
    rw [renderHighlightsAux,
      if_pos (h c (List.mem_cons_self _ _))]
    exact ih items vp acc (fun d hd => h d (List.mem_cons_of_mem _ hd))

/-! Claim theorems. -/

/-- C1 (amended): for every ordered list of glyph items and every clause
text whose normalized form is nonempty and occurs exactly once
contiguously in the normalized concatenation of the glyph items' texts,
the locate operation (highlightTextInPage steps 1-4) returns exactly the
set of glyph items that contribute at least one character to that
occurrence's character range, and no other items. -/
theorem c1_locate_single_occurrence (items : List GlyphItem)
    (clause : List Char)
    (hne : normalizeStr clause ≠ [])
    (hone : countOccs (fullPage items) (normalizeStr clause) = 1) :
    ∃ u res,
      occursAt (fullPage items) (normalizeStr clause) u = true ∧
      locateCore clause items = some res ∧
      ∀ j, j ∈ res ↔
        ∃ i, u ≤ i ∧ i < u + (normalizeStr clause).length ∧
          (charToItemMap items).get? i = some j := by
  obtain ⟨u, hu, huniq⟩ := countOccs_eq_one hone
  refine ⟨u,
    collectItems (charToItemMap items)
      [(u, u + (normalizeStr clause).length)], hu, ?_, ?_⟩
  · have hd : locateCore clause items =
        (scanOccurrences (fullPage items) (normalizeStr clause)
          ((fullPage items).length + 1) 0).map
          (collectItems (charToItemMap items)) := rfl
    rw [hd, scanOccurrences_unique hne hu huniq]
    rfl
  · intro j
    rw [mem_collectItems]
    constructor
    · rintro ⟨q, hq, i, h1, h2, h3⟩
      rw [List.mem_singleton] at hq
      subst hq
      exact ⟨i, h1, h2, h3⟩
    · rintro ⟨i, h1, h2, h3⟩
      exact ⟨(u, u + (normalizeStr clause).length),
        List.mem_singleton.mpr rfl, i, h1, h2, h3⟩

/-- C1 counterexample: with no glyph items and the three-space clause
text, the normalized clause (the empty string) occurs exactly once in
the normalized page string (also empty), yet the locate operation does
not return any set at all: its step 3 loop never terminates (modelled as
none). -/
theorem c1_counterexample :
    countOccs (fullPage ([] : List GlyphItem))
        (normalizeStr ("   ".toList)) = 1 ∧
    locateCore ("   ".toList) ([] : List GlyphItem) = none ∧
    ¬∃ res : List Nat,
        locateCore ("   ".toList) ([] : List GlyphItem) = some res := by
  refine ⟨by decide, by decide, ?_⟩
  rintro ⟨res, hres⟩
  rw [(by decide :
    locateCore ("   ".toList) ([] : List GlyphItem) = none)] at hres
  exact Option.noConfusion hres

/-- C1 witness: the single item "abc" with clause "abc". -/
theorem c1_witness :
    (normalizeStr ("abc".toList) ≠ [] ∧
      countOccs (fullPage [mkGlyph "abc"]) (normalizeStr ("abc".toList)) = 1) ∧
    ∃ u res,
      occursAt (fullPage [mkGlyph "abc"]) (normalizeStr ("abc".toList)) u = true ∧
      locateCore ("abc".toList) [mkGlyph "abc"] = some res ∧
      ∀ j, j ∈ res ↔
        ∃ i, u ≤ i ∧ i < u + (normalizeStr ("abc".toList)).length ∧
          (charToItemMap [mkGlyph "abc"]).get? i = some j :=
  ⟨⟨by decide, by decide⟩,
    c1_locate_single_occurrence [mkGlyph "abc"] ("abc".toList)
      (by decide) (by decide)⟩

/-- C2 (code bug): the clause text of three spaces has raw length 3 and
so passes the stated precondition, but it normalizes to the empty
string, and the step 3 scan then never terminates: JavaScript indexOf
with an empty search string never returns -1 and the resume position
advances by zero each iteration.  Formally, the scan returns no result
for any amount of fuel, on every page. -/
theorem c2_scan_divergence :
    (("   ".toList).length ≥ 3 ∧ normalizeStr ("   ".toList) = []) ∧
    ∀ (page : List Char) (fuel start : Nat),
      scanOccurrences page (normalizeStr ("   ".toList)) fuel start = none := by
  refine ⟨⟨by decide, by decide⟩, ?_⟩
  intro page fuel start
  rw [(by decide : normalizeStr ("   ".toList) = ([] : List Char))]
  exact scanOccurrences_nil_target page fuel start

/-- C3: every occurrence found by resuming the search at the previous
match's end contributes its glyph items, and the result is the
deduplicated union over all such occurrences; the page text
"AAA BBB AAA" with clause "AAA" yields the two occurrences (0,3) and
(6,9) whose union of contributing items is the first and third run, and
the page "AAAA" with clause "AAA" yields only the single occurrence
(0,3) (the overlapping occurrence at 1 is not counted). -/
theorem c3_multiple_occurrences (items : List GlyphItem) (clause : List Char)
    (occs : List (Nat × Nat))
    (hscan : scanOccurrences (fullPage items) (normalizeStr clause)
      ((fullPage items).length + 1) 0 = some occs) :
    (locateCore clause items =
        some (collectItems (charToItemMap items) occs) ∧
      (collectItems (charToItemMap items) occs).Nodup ∧
      ∀ j, j ∈ collectItems (charToItemMap items) occs ↔
        ∃ q ∈ occs, ∃ i, q.1 ≤ i ∧ i < q.2 ∧
          (charToItemMap items).get? i = some j) ∧
    (scanOccurrences (fullPage itemsAAA) (normalizeStr ("AAA".toList))
        ((fullPage itemsAAA).length + 1) 0 = some [(0, 3), (6, 9)] ∧
      locateCore ("AAA".toList) itemsAAA = some [0, 2]) ∧
    scanOccurrences (fullPage [mkGlyph "AAAA"]) (normalizeStr ("AAA".toList))
        ((fullPage [mkGlyph "AAAA"]).length + 1) 0 = some [(0, 3)] := by
  refine ⟨⟨?_, nodup_collectItems, fun j => mem_collectItems⟩,
    ⟨by decide, by decide⟩, by decide⟩
  have hd : locateCore clause items =
      (scanOccurrences (fullPage items) (normalizeStr clause)
        ((fullPage items).length + 1) 0).map
        (collectItems (charToItemMap items)) := rfl
  rw [hd, hscan]
  rfl

/-- C3 witness: the result set for the two occurrences of "aaa" in
"aaabbbaaa" is duplicate-free. -/
theorem c3_witness :
    (collectItems (charToItemMap itemsAAA) [(0, 3), (6, 9)]).Nodup :=
  ((c3_multiple_occurrences itemsAAA ("AAA".toList) [(0, 3), (6, 9)]
    (by decide)).1).2.1

/-- C10: the char-to-item map has exactly one entry per normalized
character, every entry is a valid index into the glyph item list, and
for every character position inside any occurrence found by step 3 the
lookup yields a defined, in-range glyph item index, so the defensive
undefined-check branch of step 4 is unreachable. -/
theorem c10_map_total (items : List GlyphItem) :
    (charToItemMap items).length = (fullPage items).length ∧
    (∀ j ∈ charToItemMap items, j < items.length) ∧
    ∀ (clause : List Char) (occs : List (Nat × Nat)),
      scanOccurrences (fullPage items) (normalizeStr clause)
        ((fullPage items).length + 1) 0 = some occs →
      ∀ q ∈ occs, ∀ i, q.1 ≤ i → i < q.2 →
        ∃ j, (charToItemMap items).get? i = some j ∧ j < items.length := by
  refine ⟨charToItemMap_length items,
    fun j hj => charToItemMap_mem_lt hj, ?_⟩
  intro clause occs hscan q hq i _ h2
  obtain ⟨hocc, hend⟩ := scanOccurrences_sound hscan q hq
  have h3 := occursAt_le hocc
  have hilen : i < (charToItemMap items).length := by
    rw [charToItemMap_length]
    omega
  exact ⟨(charToItemMap items).get ⟨i, hilen⟩, List.get?_eq_get hilen,
    charToItemMap_mem_lt (List.get_mem _ _ _)⟩

/-- C10 witness: position 0 of the first occurrence on the
"AAA BBB AAA" page maps to a valid item index. -/
theorem c10_witness :
    ∃ j, (charToItemMap itemsAAA).get? 0 = some j ∧ j < itemsAAA.length :=
  (c10_map_total itemsAAA).2.2 ("AAA".toList) [(0, 3), (6, 9)] (by decide)
    (0, 3) (by decide) 0 (by decide) (by decide)

/-- C4 (amended): the produced rectangle has height equal to the
magnitude of the composed transform's vertical basis vector, top equal
to the composed baseline anchor y minus that height, and width equal to
the glyph's intrinsic width times the viewport's uniform scale;
consequently, for any viewport transform whose two basis vectors have
equal magnitude (as every uniform-scale quarter-turn pdf.js viewport
has), a glyph transform encoding 90-degree rotation yields a rectangle
with the same width and height as the unrotated case: the box
dimensions are rotation-invariant, not swapped. -/
theorem c4_geometry (v : Viewport) (it : GlyphItem) (color : JSValue)
    (name : String) (s str : List Char) (h e0 f0 w : ℚ) :
    ((rectFor v it color name s).height =
        Real.sqrt
          (((composeAffine v.transform it.transform).c : ℝ) ^ 2 +
            ((composeAffine v.transform it.transform).d : ℝ) ^ 2) ∧
      (rectFor v it color name s).top =
        ((composeAffine v.transform it.transform).f : ℝ) -
          (rectFor v it color name s).height ∧
      (rectFor v it color name s).width = ((it.width * v.scale : ℚ) : ℝ)) ∧
    (v.transform.a ^ 2 + v.transform.b ^ 2 =
        v.transform.c ^ 2 + v.transform.d ^ 2 →
      (rectFor v ⟨str, ⟨0, h, -h, 0, e0, f0⟩, w⟩ color name s).width =
          (rectFor v ⟨str, ⟨h, 0, 0, h, e0, f0⟩, w⟩ color name s).width ∧
        (rectFor v ⟨str, ⟨0, h, -h, 0, e0, f0⟩, w⟩ color name s).height =
          (rectFor v ⟨str, ⟨h, 0, 0, h, e0, f0⟩, w⟩ color name s).height) := by
  refine ⟨⟨rfl, rfl, rfl⟩, fun hv => ⟨rfl, ?_⟩⟩
  have hvr : ((v.transform.a : ℝ)) ^ 2 + ((v.transform.b : ℝ)) ^ 2 =
      ((v.transform.c : ℝ)) ^ 2 + ((v.transform.d : ℝ)) ^ 2 := by
    exact_mod_cast hv
  simp only [rectFor, hypotR, composeAffine]
  congr 1
  push_cast
  linear_combination ((h : ℝ)) ^ 2 * hvr

/-- C4 counterexample: under the scale-1 flip viewport, the
90-degree-rotated glyph produces a rectangle of width 50 and height 10,
identical to the unrotated glyph's rectangle, not one with width and
height swapped. -/
theorem c4_counterexample :
    (rectFor cexViewport cexItemRot90 (JSValue.str "#FFFF00") "X" []).width = 50 ∧
    (rectFor cexViewport cexItemUnrot (JSValue.str "#FFFF00") "X" []).height = 10 ∧
    ¬((rectFor cexViewport cexItemRot90 (JSValue.str "#FFFF00") "X" []).width =
        (rectFor cexViewport cexItemUnrot (JSValue.str "#FFFF00") "X" []).height ∧
      (rectFor cexViewport cexItemRot90 (JSValue.str "#FFFF00") "X" []).height =
        (rectFor cexViewport cexItemUnrot (JSValue.str "#FFFF00") "X" []).width) := by
  have hw : (rectFor cexViewport cexItemRot90
      (JSValue.str "#FFFF00") "X" []).width = 50 := by
    simp only [rectFor, cexViewport, cexItemRot90]
    norm_num
  have hh : (rectFor cexViewport cexItemUnrot
      (JSValue.str "#FFFF00") "X" []).height = 10 := by
    simp only [rectFor, hypotR, composeAffine, cexViewport, cexItemUnrot]
    norm_num
    rw [show (100 : ℝ) = 10 ^ 2 by norm_num]
    exact Real.sqrt_sq (by norm_num)
  refine ⟨hw, hh, ?_⟩
  rintro ⟨h1, _⟩
  rw [hw, hh] at h1
  norm_num at h1

/-- C4 witness: heights agree for a concrete rotated/unrotated pair
under a concrete viewport with equal-magnitude basis vectors. -/
theorem c4_witness :
    (rectFor cexViewport ⟨[], ⟨0, 2, -2, 0, 3, 4⟩, 7⟩
        (JSValue.str "#FFFF00") "X" []).height =
      (rectFor cexViewport ⟨[], ⟨2, 0, 0, 2, 3, 4⟩, 7⟩
        (JSValue.str "#FFFF00") "X" []).height :=
  (((c4_geometry cexViewport cexItemUnrot (JSValue.str "#FFFF00") "X"
    [] [] 2 3 4 7).2) (by norm_num [cexViewport])).2

/-- C6: for every page content and every clause text shorter than 3
characters, the highlighting pipeline produces zero rectangles, both at
the single-clause level (highlightTextInPage) and across a whole
renderHighlights pass whose clauses are all short. -/
theorem c6_short_guard :
    (∀ (s : List Char) (color : JSValue) (items : List GlyphItem)
        (vp : Viewport) (name : String), s.length < 3 →
        highlightTextInPage s color items vp name = some []) ∧
    ∀ (clauses : List ClauseRecord) (items : List GlyphItem) (vp : Viewport),
      (∀ c ∈ clauses, c.clause.length < 3) →
      renderHighlights clauses items vp = some [] := by
  constructor
  · intro s color items vp name h
    unfold highlightTextInPage
    rw [if_pos h]
  · intro clauses items vp h
    exact renderHighlightsAux_short clauses items vp [] h

/-- C6 witness: a two-character clause produces no rectangles. -/
theorem c6_witness :
    highlightTextInPage ("ab".toList) (JSValue.str "#FFFF00") []
        ⟨⟨1, 0, 0, 1, 0, 0⟩, 1⟩ "X" = some [] ∧
    renderHighlights [⟨"Parties", "ab".toList⟩] []
        ⟨⟨1, 0, 0, 1, 0, 0⟩, 1⟩ = some [] :=
  ⟨c6_short_guard.1 _ _ _ _ _ (by decide),
    c6_short_guard.2 _ _ _ (by decide)⟩

/-- C7 (amended): the fit-to-width recomputation sets the target scale
to (container width minus the fixed 48 padding) divided by the page's
unscaled width at the current rotation (the page height when the
rotation is an odd quarter turn); this agrees with the claimed
rotation-0 formula exactly when the rotation is not an odd quarter
turn. -/
theorem c7_fit_width (pw ph cw : ℚ) (rot : Nat) :
    updateScaleToFit pw ph rot cw =
      (cw - 48) / (if rot % 180 = 90 then ph else pw) ∧
    (rot % 180 ≠ 90 → updateScaleToFit pw ph rot cw = (cw - 48) / pw) := by
  constructor
  · unfold updateScaleToFit viewportWidth
    by_cases hr : rot % 180 = 90
    · rw [if_pos hr, if_pos hr, one_mul]
    · rw [if_neg hr, if_neg hr, one_mul]
  · intro hr
    unfold updateScaleToFit viewportWidth
    rw [if_neg hr, one_mul]

/-- C7 counterexample: a 100 x 200 page rotated 90 degrees in a
448-wide container gets scale (448-48)/200 = 2, not the claimed
(448-48)/100 = 4 computed from the width at rotation 0. -/
theorem c7_counterexample :
    updateScaleToFit 100 200 90 448 = 2 ∧
    (448 - 48 : ℚ) / viewportWidth 100 200 1 0 = 4 ∧
    updateScaleToFit 100 200 90 448 ≠
      (448 - 48 : ℚ) / viewportWidth 100 200 1 0 := by
  refine ⟨?_, ?_, ?_⟩ <;> norm_num [updateScaleToFit, viewportWidth]

/-- C7 witness: at rotation 0 the code's scale equals the rotation-0
formula. -/
theorem c7_witness :
    updateScaleToFit 100 200 0 448 = (448 - 48 : ℚ) / 100 :=
  (c7_fit_width 100 200 448 0).2 (by decide)

end DocViewer
